import Mathlib

/-!
Shallow embedding of the two scripts of the `aiports-csv-sorter` repository:

* `filter_icao_in_boxes.py` — pipeline A: reads airport rows and box
  definitions, tests containment of each row in each box, deduplicates per
  box, and emits a combined match table plus a per-box code index.
* `add_icao_points_from_csv_to_geojson.py` — pipeline B: reads the match
  table back, aggregates rows by ICAO code, and appends one point feature
  per code to an existing feature collection.

Python strings are Lean `String`; `str.strip`, `str.upper`, string
comparison and `sorted` are modelled by executable functions over
`String.data` (ASCII case mapping and the ASCII whitespace set, which is
all the repository's data exercises).  Python floats are modelled as `ℚ`;
`float(...)` parsing is modelled for plain decimal literals (optional
sign, digits, optional fractional part), which covers every coordinate
format the scripts are fed.  CSV rows (`csv.DictReader` dictionaries) are
association lists from column name to cell string; a missing key plays the
role of Python's `None` from `row.get`.
-/

/-- Python `str.isspace` for the ASCII whitespace characters that
`str.strip` removes. -/
def pyIsSpace (c : Char) : Bool :=
  c.toNat = 32 || c.toNat = 9 || c.toNat = 10 || c.toNat = 13 ||
    c.toNat = 11 || c.toNat = 12

/-- Python `str.strip()`: drop leading and trailing whitespace. -/
def pyStrip (s : String) : String :=
  ⟨((s.data.dropWhile pyIsSpace).reverse.dropWhile pyIsSpace).reverse⟩

/-- Python `str.upper()` on one ASCII character. -/
def pyCharUpper (c : Char) : Char :=
  if 97 ≤ c.toNat ∧ c.toNat ≤ 122 then Char.ofNat (c.toNat - 32) else c

/-- Python `str.upper()`. -/
def pyUpper (s : String) : String := ⟨s.data.map pyCharUpper⟩

/-- Lexicographic `≤` on code-point sequences, the order Python uses to
compare strings. -/
def lexLe : List Char → List Char → Bool
  | [], _ => true
  | _ :: _, [] => false
  | a :: as, b :: bs =>
    if a.toNat < b.toNat then true
    else if a.toNat = b.toNat then lexLe as bs
    else false

/-- Python `<=` on strings. -/
def strLe (a b : String) : Bool := lexLe a.data b.data

/-- Python `sorted` on a list of strings (ascending, stable). -/
def pySorted (l : List String) : List String :=
  List.insertionSort (fun a b => strLe a b = true) l

/-- Numeric value of a digit string (most significant first). -/
def natOfDigits (l : List Char) : ℕ :=
  l.foldl (fun a c => 10 * a + (c.toNat - 48)) 0

/-- All characters are ASCII digits. -/
def allDigits (l : List Char) : Bool :=
  l.all (fun c => 48 ≤ c.toNat && c.toNat ≤ 57)

/-- Python `float(s)` on an already-stripped string, modelled for plain
decimal literals: optional sign, then digits with an optional dot
(`"7"`, `"49.0"`, `".5"`, `"1."`, `"-170"`), `none` when `float` would
raise `ValueError` (empty string, stray characters, two dots, ...). -/
def pyFloat? (s : String) : Option ℚ :=
  let cs := s.data
  let signed : Bool × List Char :=
    match cs with
    | '+' :: t => (false, t)
    | '-' :: t => (true, t)
    | _ => (false, cs)
  let neg := signed.1
  let body := signed.2
  let ip := body.takeWhile (fun c => c != '.')
  let rest := body.dropWhile (fun c => c != '.')
  let frac? : Option (List Char) :=
    match rest with
    | [] => if allDigits ip ∧ ¬ ip.isEmpty then some [] else none
    | _ :: frac =>
      if allDigits ip ∧ allDigits frac ∧ ¬ (ip.isEmpty ∧ frac.isEmpty)
      then some frac else none
  match frac? with
  | none => none
  | some frac =>
    let n := natOfDigits (ip ++ frac)
    some (mkRat (if neg then Int.negOfNat n else Int.ofNat n) (10 ^ frac.length))

/-- `safe_float` (both scripts): `None` stays `None`, the string is
stripped, an empty remainder is `None`, otherwise `float` is attempted and
a parse failure is `None`. -/
def safe_float (value : Option String) : Option ℚ :=
  match value with
  | none => none
  | some v =>
    let s := pyStrip v
    if s = "" then none else pyFloat? s

/-! Column-name constants shared by both scripts. -/

def LAT_COL : String := "latitude_deg"

def LON_COL : String := "longitude_deg"

def ICAO_COL : String := "icao_code"

def BOX_COL : String := "box_name"

def EXTRA_COLS : List String := ["ident", "name"]

/-- A CSV row as produced by `csv.DictReader`: an association list from
column name to cell contents.  `rowGet r c` is Python's `row.get(c)`. -/
abbrev Row : Type := List (String × String)

def rowGet (row : Row) (c : String) : Option String :=
  (row.find? (fun p => p.1 == c)).map (fun p => p.2)

/-- The `Box` dataclass of `filter_icao_in_boxes.py`. -/
structure Box where
  name : String
  min_lat : ℚ
  max_lat : ℚ
  min_lon : ℚ
  max_lon : ℚ
deriving DecidableEq

/-- `Box.contains`: latitude interval first, then a normal or
dateline-crossing longitude test. -/
def Box.contains (b : Box) (lat lon : ℚ) : Bool :=
  if b.min_lat ≤ lat ∧ lat ≤ b.max_lat then
    if b.min_lon ≤ b.max_lon then
      decide (b.min_lon ≤ lon ∧ lon ≤ b.max_lon)
    else
      decide (lon ≥ b.min_lon ∨ lon ≤ b.max_lon)
  else false

/-- One entry of the `boxes` array of `boxes.json`, after the Python
coercions applied inside the `try` block of `load_boxes`: `name` is
`str(b["name"])` when the key is present (`str` never fails), each bound
is the value of `float(b[...])` when the key is present and the value is
numeric, and `none` when the key is missing or `float` raises — exactly
the cases in which the `try` block raises. -/
structure BoxEntry where
  name : Option String
  min_lat : Option ℚ
  max_lat : Option ℚ
  min_lon : Option ℚ
  max_lon : Option ℚ

/-- The per-entry validation of `load_boxes` (field extraction, empty
name, `min_lat > max_lat`, latitude range, longitude range). -/
def checkBox (e : BoxEntry) : Except String Box :=
  match e.name, e.min_lat, e.max_lat, e.min_lon, e.max_lon with
  | some nm0, some mnla, some mxla, some mnlo, some mxlo =>
    let nm := pyStrip nm0
    if nm = "" then .error ("empty name")
    else if mnla > mxla then .error ("min_lat greater than max_lat")
    else if ¬ (-90 ≤ mnla ∧ mnla ≤ 90 ∧ -90 ≤ mxla ∧ mxla ≤ 90) then
      .error ("latitude outside valid range")
    else if ¬ (-180 ≤ mnlo ∧ mnlo ≤ 180 ∧ -180 ≤ mxlo ∧ mxlo ≤ 180) then
      .error ("longitude outside valid range")
    else .ok ⟨nm, mnla, mxla, mnlo, mxlo⟩
  | _, _, _, _, _ => .error ("invalid box entry")

/-- The entry loop of `load_boxes`: validate entries in order, aborting at
the first bad one. -/
def loadBoxesAux : List BoxEntry → Except String (List Box)
  | [] => .ok []
  | e :: es =>
    match checkBox e with
    | .error msg => .error msg
    | .ok b =>
      match loadBoxesAux es with
      | .error msg => .error msg
      | .ok bs => .ok (b :: bs)

/-- `load_boxes` on the decoded `boxes` array: the entry loop followed by
the name-uniqueness check (`len(names) != len(set(names))`). -/
def load_boxes (entries : List BoxEntry) : Except String (List Box) :=
  match loadBoxesAux entries with
  | .error msg => .error msg
  | .ok boxes =>
    if (boxes.map Box.name).Nodup then .ok boxes
    else .error ("Box names must be unique")

/-- A normalized airport record, the implicit value produced by lines
112–121 of `filter_csv` for a row that is not skipped; `srcRow` is kept
because the emission step reads the pass-through columns from it. -/
structure NormRec where
  icao : String
  lat : ℚ
  lon : ℚ
  srcRow : Row
deriving DecidableEq

/-- Row normalization of `filter_csv`: trim + uppercase the ICAO cell and
skip when empty, parse both coordinates with `safe_float` and skip when
either fails. -/
def normRow (row : Row) : Option NormRec :=
  let icao := pyUpper (pyStrip ((rowGet row ICAO_COL).getD ""))
  if icao = "" then none
  else
    match safe_float (rowGet row LAT_COL), safe_float (rowGet row LON_COL) with
    | some lat, some lon => some ⟨icao, lat, lon, row⟩
    | _, _ => none

/-- One row of the combined output table (`out` dict of `filter_csv`);
coordinates are kept as the parsed numbers (the f-string rendering on
write-out is serialization plumbing). -/
structure OutRow where
  box_name : String
  icao_code : String
  latitude_deg : ℚ
  longitude_deg : ℚ
  extra : List (String × String)
deriving DecidableEq

/-- The `out` dict built for a match of record `rec` in box `b`: fixed
columns plus each pass-through column, stripped, defaulting to `""`. -/
def mkOut (b : Box) (rec : NormRec) : OutRow :=
  ⟨b.name, rec.icao, rec.lat, rec.lon,
    EXTRA_COLS.map (fun c => (c, pyStrip ((rowGet rec.srcRow c).getD "")))⟩

/-- Value of one pass-through column of an output row. -/
def extraOf (o : OutRow) (c : String) : Option String :=
  (o.extra.find? (fun p => p.1 == c)).map (fun p => p.2)

/-- The mutable state of `filter_csv`: `combined_rows`, `per_box_icaos`
and `per_box_seen`, the latter two as association lists keyed by box
name. -/
structure FilterState where
  combined_rows : List OutRow
  per_box_icaos : List (String × List String)
  per_box_seen : List (String × List String)
deriving DecidableEq

/-- Dictionary lookup used for `per_box_seen[b.name]` /
`per_box_icaos[b.name]`; the key is always present (the dicts are seeded
with every box name), so the `[]` default is never observed in runs the
scripts perform. -/
def alookup (l : List (String × List String)) (k : String) : List String :=
  match l.find? (fun p => p.1 == k) with
  | some p => p.2
  | none => []

/-- In-place update of the (first) entry with key `k`. -/
def aupd (l : List (String × List String)) (k : String)
    (f : List String → List String) : List (String × List String) :=
  match l with
  | [] => []
  | p :: t => if p.1 == k then (p.1, f p.2) :: t else p :: aupd t k f

/-- The body of `for b in boxes` in `filter_csv`: containment test,
per-box dedup via the seen set, then append to the seen set, the per-box
index and the combined rows. -/
def stepBox (rec : NormRec) (st : FilterState) (b : Box) : FilterState :=
  if b.contains rec.lat rec.lon then
    if rec.icao ∈ alookup st.per_box_seen b.name then st
    else
      ⟨st.combined_rows ++ [mkOut b rec],
        aupd st.per_box_icaos b.name (fun l => l ++ [rec.icao]),
        aupd st.per_box_seen b.name (fun l => rec.icao :: l)⟩
  else st

/-- The body of `for row in reader` in `filter_csv`: normalize, skip bad
rows, otherwise run every box in declaration order. -/
def stepRow (boxes : List Box) (st : FilterState) (row : Row) : FilterState :=
  match normRow row with
  | none => st
  | some rec => boxes.foldl (stepBox rec) st

/-- Initial state of `filter_csv`: empty combined table, one empty list
and one empty seen set per box. -/
def initState (boxes : List Box) : FilterState :=
  ⟨[], boxes.map (fun b => (b.name, [])), boxes.map (fun b => (b.name, []))⟩

/-- `filter_csv` of `filter_icao_in_boxes.py` on the decoded data rows
(header validation is plumbing before this loop). -/
def filter_csv (rows : List Row) (boxes : List Box) : FilterState :=
  rows.foldl (stepRow boxes) (initState boxes)

/-- `write_combined_csv`: `csv.DictWriter.writerows` writes the given
rows one after the other in the given order — no reordering. -/
def write_combined_csv (rows : List OutRow) : List OutRow := rows

/-- `write_per_box_json`: each box's code list is sorted before the
mapping is serialized. -/
def write_per_box_json (per_box : List (String × List String)) :
    List (String × List String) :=
  per_box.map (fun p => (p.1, pySorted p.2))

/-- Printed summary of pipeline A's `main`: the matched total
`sum(len(v) for v in per_box.values())` and one per-box count; no
rows-read / rows-used counters exist in this pipeline. -/
def filterSummary (st : FilterState) : ℕ :=
  (st.per_box_icaos.map (fun p => p.2.length)).foldl (· + ·) 0

/-- One value of the `icao_to_data` dict of pipeline B. -/
structure AggEntry where
  lat : ℚ
  lon : ℚ
  boxes : List String
deriving DecidableEq

/-- The state threaded through the row loop of pipeline B's `main`. -/
structure BState where
  rows_read : ℕ
  rows_used : ℕ
  icao_to_data : List (String × AggEntry)
deriving DecidableEq

/-- Lookup in `icao_to_data`. -/
def aggFind (agg : List (String × AggEntry)) (k : String) : Option AggEntry :=
  (agg.find? (fun p => p.1 == k)).map (fun p => p.2)

/-- In-place update of the (first) entry of `icao_to_data` with key `k`. -/
def aggUpd (agg : List (String × AggEntry)) (k : String)
    (f : AggEntry → AggEntry) : List (String × AggEntry) :=
  match agg with
  | [] => []
  | p :: t => if p.1 == k then (p.1, f p.2) :: t else p :: aggUpd t k f

/-- Python `set.add` on a set modelled as a duplicate-free list. -/
def setAdd (l : List String) (s : String) : List String :=
  if s ∈ l then l else l ++ [s]

/-- The body of `for row in reader` in pipeline B's `main`: count the row,
normalize code / box name / coordinates, skip incomplete rows, skip rows
with out-of-range coordinates, then insert-or-keep the aggregate entry,
add the box name to its box set, and count the row as used. -/
def bStep (st : BState) (row : Row) : BState :=
  let icao := pyUpper (pyStrip ((rowGet row ICAO_COL).getD ""))
  let box := pyStrip ((rowGet row BOX_COL).getD "")
  match safe_float (rowGet row LAT_COL), safe_float (rowGet row LON_COL) with
  | some lat, some lon =>
    if icao = "" ∨ box = "" then
      ⟨st.rows_read + 1, st.rows_used, st.icao_to_data⟩
    else if ¬ (-90 ≤ lat ∧ lat ≤ 90 ∧ -180 ≤ lon ∧ lon ≤ 180) then
      ⟨st.rows_read + 1, st.rows_used, st.icao_to_data⟩
    else
      let agg :=
        if (aggFind st.icao_to_data icao).isSome then st.icao_to_data
        else st.icao_to_data ++ [(icao, ⟨lat, lon, []⟩)]
      ⟨st.rows_read + 1, st.rows_used + 1,
        aggUpd agg icao (fun e => ⟨e.lat, e.lon, setAdd e.boxes box⟩)⟩
  | _, _ => ⟨st.rows_read + 1, st.rows_used, st.icao_to_data⟩

/-- The whole row loop of pipeline B's `main` (lines 52–76), starting from
zero counters and an empty `icao_to_data`. -/
def bScan (rows : List Row) : BState := rows.foldl bStep ⟨0, 0, []⟩

/-- A point feature as built by pipeline B (lines 79–100); `prop_type` is
the `"type"` key of `properties`. -/
structure PointFeature where
  id : String
  geomType : String
  coordinates : List ℚ
  prop_type : String
  icao : String
  boxes : List String
  box_count : ℕ
deriving DecidableEq

/-- The `point_features` loop of pipeline B: iterate the aggregate keys in
sorted order and build one feature per code (the lookup always succeeds,
so the `filterMap` drops nothing). -/
def buildPointFeatures (agg : List (String × AggEntry)) : List PointFeature :=
  (pySorted (agg.map Prod.fst)).filterMap (fun icao =>
    match aggFind agg icao with
    | some e =>
      some ⟨"ICAO_" ++ icao, "Point", [e.lon, e.lat], "airport", icao,
        pySorted e.boxes, (pySorted e.boxes).length⟩
    | none => none)

/-- `gj["features"].extend(point_features)`: the pre-existing features (of
arbitrary shape `α`) first, the new point features appended after. -/
def mergedFeatures {α : Type} (orig : List α) (rows : List Row) :
    List (α ⊕ PointFeature) :=
  orig.map Sum.inl ++ (buildPointFeatures (bScan rows).icao_to_data).map Sum.inr

/-! Specification-side definitions used to state the properties below.
They are characterizations the theorems compare the embedded code
against, not part of the embedding itself. -/

/-- Select the combined-table rows of box `b` and code `s`. -/
def outKey (b : Box) (s : String) (o : OutRow) : Bool :=
  o.box_name == b.name && o.icao_code == s

/-- The normalized records of a row sequence, in input order. -/
def normRecs (rows : List Row) : List NormRec := rows.filterMap normRow

/-- The first record (in input order) whose code is `s` and which lies in
box `b`. -/
def findRec (recs : List NormRec) (b : Box) (s : String) : Option NormRec :=
  recs.find? (fun rec => rec.icao == s && b.contains rec.lat rec.lon)

/-- Strict Python `<` on strings. -/
def strLt (a b : String) : Bool := strLe a b && !(a == b)

/-- Ascending lexicographic order on the `(box_name, icao_code)` key of an
output row. -/
def outKeyLe (a b : OutRow) : Bool :=
  strLt a.box_name b.box_name || (a.box_name == b.box_name && strLe a.icao_code b.icao_code)

/-- The normalized code of a merge-stage row (trimmed, uppercased). -/
def rowCodeB (row : Row) : String :=
  pyUpper (pyStrip ((rowGet row ICAO_COL).getD ""))

/-- The trimmed `box_name` cell of a merge-stage row. -/
def rowBoxB (row : Row) : String := pyStrip ((rowGet row BOX_COL).getD "")

/-- Both parsed coordinates of a merge-stage row, when both parse. -/
def rowCoordsB (row : Row) : Option (ℚ × ℚ) :=
  match safe_float (rowGet row LAT_COL), safe_float (rowGet row LON_COL) with
  | some lat, some lon => some (lat, lon)
  | _, _ => none

/-- A merge-stage row that is accepted (not skipped): both coordinates
parse, code and box name are non-empty after trimming, and the
coordinates are in range.  Mirrors the skip conditions of `bStep`. -/
def acceptedB (row : Row) : Bool :=
  match safe_float (rowGet row LAT_COL), safe_float (rowGet row LON_COL) with
  | some lat, some lon =>
    if rowCodeB row = "" ∨ rowBoxB row = "" then false
    else if ¬ (-90 ≤ lat ∧ lat ≤ 90 ∧ -180 ≤ lon ∧ lon ≤ 180) then false
    else true
  | _, _ => false

/-- The merge-stage skip conditions the specification lists for `M`:
empty/invalid code or missing/unparsable coordinates. -/
def c9BadCodeOrCoords (row : Row) : Bool :=
  decide (rowCodeB row = "") || (safe_float (rowGet row LAT_COL)).isNone
    || (safe_float (rowGet row LON_COL)).isNone

/-- A merge-stage row whose coordinates parse but lie outside
`[-90, 90]` × `[-180, 180]`. -/
def c9OutOfRange (row : Row) : Bool :=
  match safe_float (rowGet row LAT_COL), safe_float (rowGet row LON_COL) with
  | some lat, some lon => decide (¬ (-90 ≤ lat ∧ lat ≤ 90 ∧ -180 ≤ lon ∧ lon ≤ 180))
  | _, _ => false

/-- Entry-level failure condition of `load_boxes`: a missing or
non-numeric field, an empty trimmed name, `min_lat > max_lat`, or a bound
outside its valid range. -/
def entryBad (e : BoxEntry) : Bool :=
  match e.name, e.min_lat, e.max_lat, e.min_lon, e.max_lon with
  | some nm, some mnla, some mxla, some mnlo, some mxlo =>
    decide (pyStrip nm = "") || decide (mnla > mxla)
      || decide (¬ (-90 ≤ mnla ∧ mnla ≤ 90 ∧ -90 ≤ mxla ∧ mxla ≤ 90))
      || decide (¬ (-180 ≤ mnlo ∧ mnlo ≤ 180 ∧ -180 ≤ mxlo ∧ mxlo ≤ 180))
  | _, _, _, _, _ => true

/-- The trimmed name of a box entry (defaulting for a missing field; a
missing field is already fatal by itself). -/
def entryName (e : BoxEntry) : String := pyStrip ((e.name).getD "")

/-! Concrete inputs used by witnesses and counterexamples. -/

/-- The antimeridian example box of the specification. -/
def pacBox : Box := ⟨"PAC", -10, 10, 170, -170⟩

/-- The end-to-end scenario box of the specification. -/
def euBox : Box := ⟨"EU", 35, 60, -10, 40⟩

def euBoxes : List Box := [euBox]

def euRow1 : Row :=
  [("icao_code", "LFPG"), ("latitude_deg", "49.0"), ("longitude_deg", "2.5")]

def euRow2 : Row :=
  [("icao_code", "KJFK"), ("latitude_deg", "40.6"), ("longitude_deg", "-73.8")]

def euRows : List Row := [euRow1, euRow2]

/-- Two overlapping boxes whose declaration order is the reverse of the
lexicographic order of their names. -/
def c3Boxes : List Box := [⟨"B", -10, 10, -10, 10⟩, ⟨"A", -10, 10, -10, 10⟩]

def c3Row : Row :=
  [("icao_code", "X"), ("latitude_deg", "0"), ("longitude_deg", "0")]

def c3Rows : List Row := [c3Row]

/-- A row whose pass-through `ident` cell carries surrounding whitespace. -/
def c8Row : Row :=
  [("icao_code", "LFPG"), ("latitude_deg", "49.0"), ("longitude_deg", "2.5"),
    ("ident", " A B ")]

def c8Rows : List Row := [c8Row]

def c4Row1 : Row :=
  [("box_name", "B2"), ("icao_code", "AAAA"), ("latitude_deg", "1"),
    ("longitude_deg", "2")]

def c4Row2 : Row :=
  [("box_name", "B1"), ("icao_code", "AAAA"), ("latitude_deg", "3"),
    ("longitude_deg", "4")]

def c4Rows : List Row := [c4Row1, c4Row2]

def c6GoodRow : Row :=
  [("icao_code", " lfpg "), ("latitude_deg", "49.0"), ("longitude_deg", "2.5")]

def c6BadRow : Row :=
  [("icao_code", "XXXX"), ("latitude_deg", "abc"), ("longitude_deg", "1")]

/-- A merge-stage row with a valid code and in-range coordinates but a
whitespace-only `box_name`. -/
def mergeBlankBoxRow : Row :=
  [("box_name", "   "), ("icao_code", "ABCD"), ("latitude_deg", "0"),
    ("longitude_deg", "0")]

def c9Rows : List Row := [mergeBlankBoxRow]

/-- The aggregate entry the merge stage builds from `c4Rows`. -/
def c4Entry : AggEntry := ⟨1, 2, ["B2", "B1"]⟩

/-- The point feature the merge stage builds from `c4Rows`. -/
def c5Feat : PointFeature :=
  ⟨"ICAO_AAAA", "Point", [2, 1], "airport", "AAAA", ["B1", "B2"], 2⟩

/-! Helper lemmas. -/

/-- `lexLe` is total. -/
theorem lexLe_total : ∀ a b : List Char, lexLe a b = true ∨ lexLe b a = true := by
  intro a
  induction a with
  | nil => intro b; left; rfl
  | cons x xs ih =>
    intro b
    cases b with
    | nil => right; rfl
    | cons y ys =>
      simp only [lexLe]
      rcases Nat.lt_trichotomy x.toNat y.toNat with h | h | h
      · left; simp [h]
      · rcases ih ys with h2 | h2
        · left; simp [h, Nat.lt_irrefl, h2]
        · right; simp [h.symm, Nat.lt_irrefl, h2]
      · right; simp [h]

/-- `lexLe` is transitive. -/
theorem lexLe_trans : ∀ a b c : List Char,
    lexLe a b = true → lexLe b c = true → lexLe a c = true := by
  intro a
  induction a with
  | nil => intro b c h1 h2; rfl
  | cons x xs ih =>
    intro b c h1 h2
    cases b with
    | nil => simp [lexLe] at h1
    | cons y ys =>
      cases c with
      | nil => simp [lexLe] at h2
      | cons z zs =>
        simp only [lexLe] at h1 h2 ⊢
        by_cases hxy : x.toNat < y.toNat
        · by_cases hyz : y.toNat < z.toNat
          · simp [Nat.lt_trans hxy hyz]
          · by_cases hyz2 : y.toNat = z.toNat
            · simp [hyz2 ▸ hxy]
            · simp [hyz, hyz2] at h2
        · by_cases hxy2 : x.toNat = y.toNat
          · by_cases hyz : y.toNat < z.toNat
            · simp [hxy2 ▸ hyz]
            · by_cases hyz2 : y.toNat = z.toNat
              · have hxz : x.toNat = z.toNat := hxy2.trans hyz2
                have h1' : lexLe xs ys = true := by simpa [hxy, hxy2] using h1
                have h2' : lexLe ys zs = true := by simpa [hyz, hyz2] using h2
                simp [hxz, Nat.lt_irrefl, ih ys zs h1' h2']
              · simp [hyz, hyz2] at h2
          · simp [hxy, hxy2] at h1

/-- Uppercasing preserves emptiness. -/
theorem pyUpper_eq_empty_iff (s : String) : pyUpper s = "" ↔ s = "" := by
  cases s with
  | mk d =>
    constructor
    · intro h
      have h2 : d.map pyCharUpper = [] := by
        simpa [pyUpper] using congrArg String.data h
      have h3 : d = [] := by simpa using h2
      simp [h3]
    · intro h
      have h3 : d = [] := by simpa using congrArg String.data h
      simp [pyUpper, h3]

/-- C1: for every box and coordinate pair, `contains` is false when the
latitude lies outside `[min_lat, max_lat]`; with the latitude in range, a
box with `min_lon ≤ max_lon` contains the point iff
`min_lon ≤ lon ≤ max_lon`, and an antimeridian box (`min_lon > max_lon`)
contains it iff `lon ≥ min_lon` or `lon ≤ max_lon`. -/
theorem contains_cases (b : Box) (lat lon : ℚ) :
    (¬ (b.min_lat ≤ lat ∧ lat ≤ b.max_lat) → b.contains lat lon = false)
    ∧ (b.min_lat ≤ lat ∧ lat ≤ b.max_lat →
        (b.min_lon ≤ b.max_lon →
          (b.contains lat lon = true ↔ (b.min_lon ≤ lon ∧ lon ≤ b.max_lon)))
        ∧ (b.min_lon > b.max_lon →
          (b.contains lat lon = true ↔ (lon ≥ b.min_lon ∨ lon ≤ b.max_lon)))) := by
  refine ⟨fun h => ?_, fun h => ⟨fun hlon => ?_, fun hlon => ?_⟩⟩
  · simp [Box.contains, h]
  · simp [Box.contains, h, hlon]
  · rw [Box.contains, if_pos h, if_neg (not_le.mpr hlon)]
    simp

/-- Witness for C1: the specification's antimeridian example box. -/
theorem contains_cases_witness :
    pacBox.contains 0 175 = true ∧ pacBox.contains 0 (-175) = true
      ∧ pacBox.contains 0 0 = false := by
  refine ⟨?_, ?_, ?_⟩
  · exact (((contains_cases pacBox 0 175).2 (by decide)).2 (by decide)).mpr (by decide)
  · exact (((contains_cases pacBox 0 (-175)).2 (by decide)).2 (by decide)).mpr (by decide)
  · cases hb : pacBox.contains 0 0 with
    | false => rfl
    | true =>
      have h := (((contains_cases pacBox 0 0).2 (by decide)).2 (by decide)).mp hb
      exact absurd h (by decide)

/-- C6: in the filter pipeline a raw row is skipped silently — normalizes
to nothing, and processing it leaves the filter state untouched — exactly
when the ICAO cell is empty after trimming or either coordinate cell is
missing, empty, or unparsable; otherwise the record carries the trimmed
uppercased code and the parsed coordinates. -/
theorem normRow_spec (row : Row) :
    (normRow row = none ↔
      (pyStrip ((rowGet row ICAO_COL).getD "") = ""
        ∨ safe_float (rowGet row LAT_COL) = none
        ∨ safe_float (rowGet row LON_COL) = none))
    ∧ (∀ rec, normRow row = some rec →
        rec.icao = pyUpper (pyStrip ((rowGet row ICAO_COL).getD ""))
          ∧ some rec.lat = safe_float (rowGet row LAT_COL)
          ∧ some rec.lon = safe_float (rowGet row LON_COL)
          ∧ rec.srcRow = row)
    ∧ (∀ (boxes : List Box) (st : FilterState),
        normRow row = none → stepRow boxes st row = st) := by
  refine ⟨?_, ?_, ?_⟩
  · simp only [normRow]
    by_cases h : pyUpper (pyStrip ((rowGet row ICAO_COL).getD "")) = ""
    · have hup : pyUpper "" = "" := (pyUpper_eq_empty_iff "").mpr rfl
      simp [h, (pyUpper_eq_empty_iff _).mp h, hup]
    · have h' : ¬ pyStrip ((rowGet row ICAO_COL).getD "") = "" :=
        fun he => h ((pyUpper_eq_empty_iff _).mpr he)
      rw [if_neg h]
      cases hla : safe_float (rowGet row LAT_COL) <;>
        cases hlo : safe_float (rowGet row LON_COL) <;> simp [h']
  · intro rec h
    simp only [normRow] at h
    by_cases hi : pyUpper (pyStrip ((rowGet row ICAO_COL).getD "")) = ""
    · rw [if_pos hi] at h; cases h
    · rw [if_neg hi] at h
      cases hla : safe_float (rowGet row LAT_COL) <;>
        cases hlo : safe_float (rowGet row LON_COL) <;> rw [hla, hlo] at h
      · cases h
      · cases h
      · cases h
      · cases h
        exact ⟨rfl, rfl, rfl, rfl⟩
  · intro boxes st h
    simp [stepRow, h]

/-- Witness for C6: a row with a padded lowercase code normalizes to the
trimmed uppercase record, and a row with an unparsable latitude is
dropped without touching the state. -/
theorem normRow_spec_witness :
    ((⟨"LFPG", mkRat 490 10, mkRat 25 10, c6GoodRow⟩ : NormRec).icao
        = pyUpper (pyStrip ((rowGet c6GoodRow ICAO_COL).getD ""))
      ∧ some (⟨"LFPG", mkRat 490 10, mkRat 25 10, c6GoodRow⟩ : NormRec).lat
          = safe_float (rowGet c6GoodRow LAT_COL)
      ∧ some (⟨"LFPG", mkRat 490 10, mkRat 25 10, c6GoodRow⟩ : NormRec).lon
          = safe_float (rowGet c6GoodRow LON_COL)
      ∧ (⟨"LFPG", mkRat 490 10, mkRat 25 10, c6GoodRow⟩ : NormRec).srcRow = c6GoodRow)
    ∧ stepRow euBoxes ⟨[], [], []⟩ c6BadRow = ⟨[], [], []⟩ :=
  ⟨(normRow_spec c6GoodRow).2.1 _ (by decide),
    (normRow_spec c6BadRow).2.2 euBoxes ⟨[], [], []⟩ (by decide)⟩

/-- C10: a merge-stage row whose `box_name` cell is empty after trimming
is skipped outright — the row counter advances but the used counter and
the aggregate stay unchanged — irrespective of its code and coordinates. -/
theorem bStep_blank_box (st : BState) (row : Row)
    (h : pyStrip ((rowGet row BOX_COL).getD "") = "") :
    bStep st row = ⟨st.rows_read + 1, st.rows_used, st.icao_to_data⟩ := by
  simp only [bStep]
  cases hla : safe_float (rowGet row LAT_COL) <;>
    cases hlo : safe_float (rowGet row LON_COL) <;> simp [h]

/-- Witness for C10: a row with valid code `ABCD` and in-range coordinates
but a whitespace-only box name only advances the row counter. -/
theorem bStep_blank_box_witness :
    bStep ⟨0, 0, []⟩ mergeBlankBoxRow = ⟨1, 0, []⟩ :=
  bStep_blank_box ⟨0, 0, []⟩ mergeBlankBoxRow (by decide)

/-- Counterexample to C9: one merge-stage row with a non-empty code,
parsable in-range coordinates, and a whitespace-only box name — the
claim's formula predicts `rows used = N - M - out-of-range = 1`, but the
run reports `0`. -/
theorem c9_counterexample :
    (bScan c9Rows).rows_read = c9Rows.length
      ∧ (c9Rows.filter c9BadCodeOrCoords).length = 0
      ∧ (c9Rows.filter c9OutOfRange).length = 0
      ∧ (bScan c9Rows).rows_used ≠ c9Rows.length - 0 - 0 := by decide

/-- Each merge-stage row advances `rows_read` by one, and `rows_used` by
one exactly when the row is accepted. -/
theorem bStep_counts (st : BState) (row : Row) :
    (bStep st row).rows_read = st.rows_read + 1
      ∧ (bStep st row).rows_used = st.rows_used + (if acceptedB row = true then 1 else 0) := by
  rcases hla : safe_float (rowGet row LAT_COL) with _ | lat
  · simp [bStep, acceptedB, hla]
  · rcases hlo : safe_float (rowGet row LON_COL) with _ | lon
    · simp [bStep, acceptedB, hla, hlo]
    · by_cases h1 : pyUpper (pyStrip ((rowGet row ICAO_COL).getD "")) = ""
          ∨ pyStrip ((rowGet row BOX_COL).getD "") = ""
      · simp [bStep, acceptedB, rowCodeB, rowBoxB, hla, hlo, h1]
      · by_cases h2 : ¬ (-90 ≤ lat ∧ lat ≤ 90 ∧ -180 ≤ lon ∧ lon ≤ 180)
        · simp [bStep, acceptedB, rowCodeB, rowBoxB, hla, hlo, h1, h2]
        · simp [bStep, acceptedB, rowCodeB, rowBoxB, hla, hlo, h1, h2]

/-- Counter bookkeeping of the merge-stage loop, from any starting state. -/
theorem bScan_counts_aux : ∀ (rows : List Row) (st : BState),
    (rows.foldl bStep st).rows_read = st.rows_read + rows.length
      ∧ (rows.foldl bStep st).rows_used = st.rows_used + (rows.filter acceptedB).length := by
  intro rows
  induction rows with
  | nil => intro st; simp
  | cons r rs ih =>
    intro st
    rcases bStep_counts st r with ⟨h1, h2⟩
    rcases ih (bStep st r) with ⟨h3, h4⟩
    constructor
    · rw [List.foldl_cons, h3, h1]
      simp [Nat.add_comm, Nat.add_assoc, Nat.add_left_comm]
    · rw [List.foldl_cons, h4, h2]
      by_cases ha : acceptedB r = true
      · simp [List.filter_cons, ha]
        omega
      · simp [List.filter_cons, ha]

/-- C9 (amended): in the merge pipeline the printed `rows read` counter
equals the number of data rows, and the printed `rows used` counter
equals the number of rows that survive every skip condition — non-empty
code, non-empty box name, parsable coordinates, coordinates in range.
(The filter pipeline prints per-box matched-code counts, not rows
read/used, see `filterSummary`.) -/
theorem bScan_counts (rows : List Row) :
    (bScan rows).rows_read = rows.length
      ∧ (bScan rows).rows_used = (rows.filter acceptedB).length := by
  have h := bScan_counts_aux rows ⟨0, 0, []⟩
  simpa [bScan] using h

/-- A box entry fails its per-entry validation exactly when `entryBad`
holds. -/
theorem checkBox_error_iff (e : BoxEntry) :
    (∃ msg, checkBox e = .error msg) ↔ entryBad e = true := by
  rcases e with ⟨name, a, b, c, d⟩
  rcases name with _ | nm
  · simp [checkBox, entryBad]
  rcases a with _ | mnla
  · simp [checkBox, entryBad]
  rcases b with _ | mxla
  · simp [checkBox, entryBad]
  rcases c with _ | mnlo
  · simp [checkBox, entryBad]
  rcases d with _ | mxlo
  · simp [checkBox, entryBad]
  simp only [checkBox, entryBad]
  by_cases h1 : pyStrip nm = ""
  · simp [h1]
  by_cases h2 : mnla > mxla
  · simp [h1, h2]
  by_cases h3 : (-90 ≤ mnla ∧ mnla ≤ 90 ∧ -90 ≤ mxla ∧ mxla ≤ 90)
  all_goals by_cases h4 : (-180 ≤ mnlo ∧ mnlo ≤ 180 ∧ -180 ≤ mxlo ∧ mxlo ≤ 180)
  all_goals simp [h1, h2, h3, h4]

/-- A successfully validated entry yields a box carrying the trimmed
name. -/
theorem checkBox_ok_name (e : BoxEntry) (bx : Box) (h : checkBox e = .ok bx) :
    bx.name = entryName e := by
  rcases e with ⟨name, a, b, c, d⟩
  cases name <;> cases a <;> cases b <;> cases c <;> cases d <;>
    simp only [checkBox] at h <;> try cases h
  split_ifs at h
  cases h
  simp [entryName]

/-- The entry loop fails exactly when some entry is bad. -/
theorem loadBoxesAux_error_iff (entries : List BoxEntry) :
    (∃ msg, loadBoxesAux entries = .error msg) ↔
      ∃ e ∈ entries, entryBad e = true := by
  induction entries with
  | nil => simp [loadBoxesAux]
  | cons e es ih =>
    simp only [loadBoxesAux]
    cases hc : checkBox e with
    | error msg =>
      have hbad := (checkBox_error_iff e).mp ⟨msg, hc⟩
      simp [hbad]
    | ok b =>
      have hnotbad : ¬ entryBad e = true := fun hb => by
        rcases (checkBox_error_iff e).mpr hb with ⟨msg, hmsg⟩
        rw [hc] at hmsg
        cases hmsg
      cases ha : loadBoxesAux es with
      | error m =>
        rw [ha] at ih
        simp only [List.mem_cons, exists_eq_or_imp]
        simp [hnotbad, ← ih]
      | ok bs =>
        rw [ha] at ih
        simp only [List.mem_cons, exists_eq_or_imp]
        simp [hnotbad, ← ih]

/-- When the entry loop succeeds, the produced box names are the trimmed
entry names, in order. -/
theorem loadBoxesAux_ok_names (entries : List BoxEntry) (boxes : List Box)
    (h : loadBoxesAux entries = .ok boxes) :
    boxes.map Box.name = entries.map entryName := by
  induction entries generalizing boxes with
  | nil =>
    simp only [loadBoxesAux] at h
    cases h
    simp
  | cons e es ih =>
    simp only [loadBoxesAux] at h
    cases hc : checkBox e with
    | error msg => rw [hc] at h; cases h
    | ok b =>
      rw [hc] at h
      cases ha : loadBoxesAux es with
      | error m => rw [ha] at h; cases h
      | ok bs =>
        rw [ha] at h
        cases h
        simp [checkBox_ok_name e b hc, ih bs ha]

/-- C7: loading the box definitions fails exactly when some entry has a
missing or non-numeric field, an empty trimmed name, `min_lat > max_lat`,
or a bound outside its valid range, or when two (trimmed) box names
coincide; in particular an in-range entry with `min_lon > max_lon` is
accepted as an antimeridian box. -/
theorem load_boxes_error_iff (entries : List BoxEntry) :
    (∃ msg, load_boxes entries = .error msg) ↔
      ((∃ e ∈ entries, entryBad e = true) ∨ ¬ (entries.map entryName).Nodup) := by
  unfold load_boxes
  cases ha : loadBoxesAux entries with
  | error m =>
    have h1 : ∃ e ∈ entries, entryBad e = true :=
      (loadBoxesAux_error_iff entries).mp ⟨m, ha⟩
    simp [h1]
  | ok boxes =>
    have h1 : ¬ ∃ e ∈ entries, entryBad e = true := fun hx => by
      rcases (loadBoxesAux_error_iff entries).mpr hx with ⟨msg, hmsg⟩
      rw [ha] at hmsg
      cases hmsg
    have h2 := loadBoxesAux_ok_names entries boxes ha
    by_cases hnd : (boxes.map Box.name).Nodup
    · simp [hnd, h1, h2 ▸ hnd]
    · have : ¬ (entries.map entryName).Nodup := h2 ▸ hnd
      simp [hnd, h1, this]

/-- Counterexample to C3: with boxes declared in the order `B`, `A` and
one row matching both, the written matches table is `B`-row then `A`-row —
it is not re-sorted by `(box_name, icao_code)` before emission. -/
theorem c3_counterexample :
    ¬ List.Sorted (fun a b => outKeyLe a b = true)
        (write_combined_csv (filter_csv c3Rows c3Boxes).combined_rows) := by
  decide

/-- C3 (amended): the combined matches table is written exactly in
production order (input row order, boxes in declaration order within a
row) with no re-sort; the lexicographic sorting happens only in the
per-box JSON side output, whose code lists are each emitted sorted (as a
permutation of the collected codes). -/
theorem write_outputs_order (rows : List Row) (boxes : List Box) :
    write_combined_csv (filter_csv rows boxes).combined_rows
      = (filter_csv rows boxes).combined_rows
    ∧ ∀ p ∈ write_per_box_json (filter_csv rows boxes).per_box_icaos,
        List.Sorted (fun a b => strLe a b = true) p.2
          ∧ ∃ v, (p.1, v) ∈ (filter_csv rows boxes).per_box_icaos ∧ p.2.Perm v := by
  refine ⟨rfl, ?_⟩
  intro p hp
  rcases List.mem_map.mp hp with ⟨q, hq, rfl⟩
  refine ⟨?_, q.2, hq, ?_⟩
  · letI : IsTotal String (fun a b => strLe a b = true) :=
      ⟨fun a b => lexLe_total a.data b.data⟩
    letI : IsTrans String (fun a b => strLe a b = true) :=
      ⟨fun a b c => lexLe_trans a.data b.data c.data⟩
    exact List.sorted_insertionSort _ _
  · exact List.perm_insertionSort _ _

/-- Witness for the amended C3 at the two-box scenario. -/
theorem write_outputs_order_witness :
    write_combined_csv (filter_csv c3Rows c3Boxes).combined_rows
      = (filter_csv c3Rows c3Boxes).combined_rows
    ∧ (List.Sorted (fun a b => strLe a b = true)
          (("B", ["X"]) : String × List String).2
        ∧ ∃ v, ((("B", ["X"]) : String × List String).1, v)
              ∈ (filter_csv c3Rows c3Boxes).per_box_icaos
            ∧ (("B", ["X"]) : String × List String).2.Perm v) :=
  ⟨(write_outputs_order c3Rows c3Boxes).1,
    (write_outputs_order c3Rows c3Boxes).2 ("B", ["X"]) (by decide)⟩

/-- A normalized record remembers the raw row it came from. -/
theorem normRow_some_src (row : Row) (rec : NormRec) (h : normRow row = some rec) :
    rec.srcRow = row := by
  simp only [normRow] at h
  by_cases hi : pyUpper (pyStrip ((rowGet row ICAO_COL).getD "")) = ""
  · rw [if_pos hi] at h; cases h
  · rw [if_neg hi] at h
    rcases hla : safe_float (rowGet row LAT_COL) with _ | la <;>
      rcases hlo : safe_float (rowGet row LON_COL) with _ | lo <;>
      rw [hla, hlo] at h <;> cases h
    rfl

/-- Every combined row produced by the inner box loop either pre-existed
or is the output template of the current record at some box. -/
theorem stepBox_combined_origin (rec : NormRec) (o : OutRow) :
    ∀ (bs : List Box) (st : FilterState),
      o ∈ (bs.foldl (stepBox rec) st).combined_rows →
      o ∈ st.combined_rows ∨ ∃ b, o = mkOut b rec := by
  intro bs
  induction bs with
  | nil => intro st h; exact Or.inl h
  | cons b bs ih =>
    intro st h
    rcases ih (stepBox rec st b) h with h1 | h1
    · simp only [stepBox] at h1
      by_cases hc : b.contains rec.lat rec.lon
      · rw [if_pos hc] at h1
        by_cases hm : rec.icao ∈ alookup st.per_box_seen b.name
        · rw [if_pos hm] at h1; exact Or.inl h1
        · rw [if_neg hm] at h1
          simp only [List.mem_append, List.mem_singleton] at h1
          rcases h1 with h2 | h2
          · exact Or.inl h2
          · exact Or.inr ⟨b, h2⟩
      · rw [if_neg hc] at h1; exact Or.inl h1
    · exact Or.inr h1

/-- Every combined row of `filter_csv` originates from some input row's
normalized record. -/
theorem filter_combined_origin (boxes : List Box) (o : OutRow) :
    ∀ (rows : List Row) (st : FilterState),
      o ∈ (rows.foldl (stepRow boxes) st).combined_rows →
      o ∈ st.combined_rows
        ∨ ∃ r ∈ rows, ∃ rec b, normRow r = some rec ∧ o = mkOut b rec := by
  intro rows
  induction rows with
  | nil => intro st h; exact Or.inl h
  | cons r rs ih =>
    intro st h
    rcases ih (stepRow boxes st r) h with h1 | h1
    · cases hn : normRow r with
      | none =>
        simp only [stepRow, hn] at h1
        exact Or.inl h1
      | some rec =>
        simp only [stepRow, hn] at h1
        rcases stepBox_combined_origin rec o boxes st h1 with h2 | h2
        · exact Or.inl h2
        · rcases h2 with ⟨b, hb⟩
          exact Or.inr ⟨r, List.mem_cons_self r rs, rec, b, hn, hb⟩
    · rcases h1 with ⟨r', hr', rest⟩
      exact Or.inr ⟨r', List.mem_cons_of_mem r hr', rest⟩

/-- Looking a template column up in a keyed template list yields the
template value. -/
theorem find_map_template {β : Type} (g : String → β) :
    ∀ (cols : List String) (c : String), c ∈ cols →
      ((cols.map (fun x => (x, g x))).find? (fun p => p.1 == c)).map (fun p => p.2)
        = some (g c) := by
  intro cols
  induction cols with
  | nil => intro c hc; cases hc
  | cons x xs ih =>
    intro c hc
    by_cases hxc : x = c
    · subst hxc
      rw [List.map_cons, List.find?_cons_of_pos _ (by simp)]
      rfl
    · have hb : (x == c) = false := beq_eq_false_iff_ne.mpr hxc
      have hmem : c ∈ xs := by
        rcases List.mem_cons.mp hc with h | h
        · exact absurd h.symm hxc
        · exact h
      rw [List.map_cons, List.find?_cons_of_neg _ (by simp [hb])]
      exact ih c hmem

/-- Each pass-through cell of an output template is the stripped source
cell. -/
theorem extraOf_mkOut (b : Box) (rec : NormRec) (c : String) (hc : c ∈ EXTRA_COLS) :
    extraOf (mkOut b rec) c = some (pyStrip ((rowGet rec.srcRow c).getD "")) := by
  simpa [extraOf, mkOut] using
    find_map_template (fun x => pyStrip ((rowGet rec.srcRow x).getD "")) EXTRA_COLS c hc

/-- Counterexample to C8: a source row whose `ident` cell is `" A B "`
produces an output row whose `ident` cell is the stripped `"A B"`, not a
verbatim copy. -/
theorem c8_counterexample :
    ((filter_csv c8Rows euBoxes).combined_rows.map (fun o => extraOf o ("ident")))
      = [some ("A B")]
    ∧ rowGet c8Row ("ident") = some (" A B ")
    ∧ (("A B") : String) ≠ (" A B ") := by decide

/-- C8 (amended): every emitted match row copies each configured
pass-through column from its source row with surrounding whitespace
stripped, and carries the empty string when the column is absent (the
missing cell defaults to `""`, whose strip is `""`). -/
theorem filter_extra_trimmed (rows : List Row) (boxes : List Box)
    (o : OutRow) (ho : o ∈ (filter_csv rows boxes).combined_rows) :
    ∃ r ∈ rows, ∀ c ∈ EXTRA_COLS,
      extraOf o c = some (pyStrip ((rowGet r c).getD "")) := by
  rcases filter_combined_origin boxes o rows (initState boxes) ho with h | h
  · simp [initState] at h
  · rcases h with ⟨r, hr, rec, b, hn, rfl⟩
    refine ⟨r, hr, fun c hc => ?_⟩
    rw [extraOf_mkOut b rec c hc, normRow_some_src r rec hn]

/-- Witness for the amended C8 at the whitespace-`ident` scenario. -/
theorem filter_extra_trimmed_witness :
    ∃ r ∈ c8Rows, ∀ c ∈ EXTRA_COLS,
      extraOf (mkOut euBox ⟨"LFPG", mkRat 490 10, mkRat 25 10, c8Row⟩) c
        = some (pyStrip ((rowGet r c).getD "")) :=
  filter_extra_trimmed c8Rows euBoxes
    (mkOut euBox ⟨"LFPG", mkRat 490 10, mkRat 25 10, c8Row⟩) (by decide)

/-- Updating a keyed entry does not change the key sequence. -/
theorem aupd_keys (l : List (String × List String)) (k : String)
    (f : List String → List String) :
    (aupd l k f).map Prod.fst = l.map Prod.fst := by
  induction l with
  | nil => rfl
  | cons p t ih =>
    simp only [aupd]
    by_cases h : (p.1 == k) = true
    · rw [if_pos h]; rfl
    · rw [if_neg h, List.map_cons, List.map_cons, ih]

/-- Updating a present key rewrites exactly its looked-up value. -/
theorem alookup_aupd_self (l : List (String × List String)) (k : String)
    (f : List String → List String) (hk : k ∈ l.map Prod.fst) :
    alookup (aupd l k f) k = f (alookup l k) := by
  induction l with
  | nil => cases hk
  | cons p t ih =>
    simp only [aupd]
    by_cases h : (p.1 == k) = true
    · rw [if_pos h]
      unfold alookup
      rw [List.find?_cons_of_pos _ (by simpa using h),
        List.find?_cons_of_pos _ (by simpa using h)]
    · rw [if_neg h]
      unfold alookup
      rw [List.find?_cons_of_neg _ (by simpa using h),
        List.find?_cons_of_neg _ (by simpa using h)]
      have hk' : k ∈ t.map Prod.fst := by
        rcases List.mem_cons.mp hk with h1 | h1
        · exact absurd (by simp [h1]) h
        · exact h1
      exact ih hk'

/-- Updating one key leaves every other key's lookup unchanged. -/
theorem alookup_aupd_ne (l : List (String × List String)) (k k' : String)
    (f : List String → List String) (hne : k ≠ k') :
    alookup (aupd l k f) k' = alookup l k' := by
  induction l with
  | nil => rfl
  | cons p t ih =>
    simp only [aupd]
    by_cases h : (p.1 == k) = true
    · rw [if_pos h]
      have hp : p.1 = k := by simpa using h
      have hfalse : ((p.1, f p.2).1 == k') = false := by
        simp [hp, hne]
      unfold alookup
      rw [List.find?_cons_of_neg _ (by simp [hfalse]),
        List.find?_cons_of_neg _ (by simp [hp, hne])]
    · rw [if_neg h]
      unfold alookup
      by_cases h2 : (p.1 == k') = true
      · rw [List.find?_cons_of_pos _ (by simpa using h2),
          List.find?_cons_of_pos _ (by simpa using h2)]
      · rw [List.find?_cons_of_neg _ (by simpa using h2),
          List.find?_cons_of_neg _ (by simpa using h2)]
        exact ih

/-- In the freshly seeded per-box dictionaries every lookup is empty. -/
theorem alookup_pairs_nil (boxes : List Box) (k : String) :
    alookup (boxes.map (fun b => (b.name, []))) k = [] := by
  induction boxes with
  | nil => rfl
  | cons b bs ih =>
    unfold alookup
    rw [List.map_cons]
    by_cases h : ((b.name, ([] : List String)).1 == k) = true
    · simp only [List.find?_cons, h]
    · have hf : ((b.name, ([] : List String)).1 == k) = false := by simpa using h
      simp only [List.find?_cons, hf]
      simpa [alookup] using ih

/-- One inner step never changes the key sequence of the seen sets. -/
theorem stepBox_seen_keys (rec : NormRec) (st : FilterState) (b : Box) :
    (stepBox rec st b).per_box_seen.map Prod.fst
      = st.per_box_seen.map Prod.fst := by
  simp only [stepBox]
  by_cases hc : b.contains rec.lat rec.lon = true
  · rw [if_pos hc]
    by_cases hm : rec.icao ∈ alookup st.per_box_seen b.name
    · rw [if_pos hm]
    · rw [if_neg hm]
      exact aupd_keys _ _ _
  · rw [if_neg hc]

/-- The whole inner loop never changes the key sequence of the seen
sets. -/
theorem foldlBoxes_seen_keys (rec : NormRec) :
    ∀ (bs : List Box) (st : FilterState),
      ((bs.foldl (stepBox rec) st).per_box_seen.map Prod.fst)
        = st.per_box_seen.map Prod.fst := by
  intro bs
  induction bs with
  | nil => intro st; rfl
  | cons b t ih =>
    intro st
    rw [List.foldl_cons, ih, stepBox_seen_keys]

/-- An inner step at a box with a different name changes neither the
target box's seen set nor its slice of the combined table. -/
theorem stepBox_other (rec : NormRec) (b : Box) (s : String) (b' : Box)
    (hne : b'.name ≠ b.name) (st : FilterState) :
    alookup (stepBox rec st b').per_box_seen b.name = alookup st.per_box_seen b.name
    ∧ (stepBox rec st b').combined_rows.filter (outKey b s)
        = st.combined_rows.filter (outKey b s) := by
  simp only [stepBox]
  by_cases hc : b'.contains rec.lat rec.lon = true
  · rw [if_pos hc]
    by_cases hm : rec.icao ∈ alookup st.per_box_seen b'.name
    · rw [if_pos hm]
      exact ⟨rfl, rfl⟩
    · rw [if_neg hm]
      constructor
      · exact alookup_aupd_ne _ _ _ _ hne
      · rw [List.filter_append]
        have hrow : outKey b s (mkOut b' rec) = false := by
          simp [outKey, mkOut, hne]
        simp [hrow]
  · rw [if_neg hc]
    exact ⟨rfl, rfl⟩

/-- A run of inner steps at boxes with different names is invisible to
the target box. -/
theorem foldl_stepBox_frame (rec : NormRec) (b : Box) (s : String) :
    ∀ (bs : List Box), (∀ b' ∈ bs, b'.name ≠ b.name) → ∀ st : FilterState,
      alookup ((bs.foldl (stepBox rec) st)).per_box_seen b.name
          = alookup st.per_box_seen b.name
      ∧ (bs.foldl (stepBox rec) st).combined_rows.filter (outKey b s)
          = st.combined_rows.filter (outKey b s) := by
  intro bs
  induction bs with
  | nil => intro _ st; exact ⟨rfl, rfl⟩
  | cons b' t ih =>
    intro hall st
    rw [List.foldl_cons]
    have h1 := stepBox_other rec b s b' (hall b' (List.mem_cons_self b' t)) st
    have h2 := ih (fun x hx => hall x (List.mem_cons_of_mem b' hx)) (stepBox rec st b')
    exact ⟨h2.1.trans h1.1, h2.2.trans h1.2⟩

/-- The inner step at the target box itself: the seen set gains the code
on a fresh containment hit, and the combined slice gains the output row
when moreover the code is the one selected. -/
theorem stepBox_self (rec : NormRec) (b : Box) (s : String) (st : FilterState)
    (hk : b.name ∈ st.per_box_seen.map Prod.fst) :
    alookup (stepBox rec st b).per_box_seen b.name
      = (if b.contains rec.lat rec.lon = true
            ∧ rec.icao ∉ alookup st.per_box_seen b.name
          then rec.icao :: alookup st.per_box_seen b.name
          else alookup st.per_box_seen b.name)
    ∧ (stepBox rec st b).combined_rows.filter (outKey b s)
      = st.combined_rows.filter (outKey b s)
        ++ (if b.contains rec.lat rec.lon = true
              ∧ rec.icao ∉ alookup st.per_box_seen b.name ∧ rec.icao = s
            then [mkOut b rec] else []) := by
  simp only [stepBox]
  by_cases hc : b.contains rec.lat rec.lon = true
  · rw [if_pos hc]
    by_cases hm : rec.icao ∈ alookup st.per_box_seen b.name
    · rw [if_pos hm]
      constructor
      · rw [if_neg (fun h => h.2 hm)]
      · rw [if_neg (fun h => h.2.1 hm)]
        simp
    · rw [if_neg hm]
      constructor
      · rw [alookup_aupd_self _ _ _ hk, if_pos ⟨hc, hm⟩]
      · rw [List.filter_append]
        by_cases hs : rec.icao = s
        · rw [if_pos ⟨hc, hm, hs⟩]
          have hrow : outKey b s (mkOut b rec) = true := by
            simp [outKey, mkOut, hs]
          simp [hrow]
        · rw [if_neg (fun h => hs h.2.2)]
          have hrow : outKey b s (mkOut b rec) = false := by
            simp [outKey, mkOut, hs]
          simp [hrow]
  · rw [if_neg hc]
    constructor
    · rw [if_neg (fun h => hc h.1)]
    · rw [if_neg (fun h => hc h.1)]
      simp

/-- A member of a name-distinct box list splits it into a prefix and a
suffix avoiding its name. -/
theorem boxes_split (boxes : List Box) (b : Box) (hb : b ∈ boxes)
    (hnd : (boxes.map Box.name).Nodup) :
    ∃ l₁ l₂, boxes = l₁ ++ b :: l₂
      ∧ (∀ b' ∈ l₁, b'.name ≠ b.name) ∧ (∀ b' ∈ l₂, b'.name ≠ b.name) := by
  rcases List.append_of_mem hb with ⟨l₁, l₂, rfl⟩
  rw [List.map_append, List.nodup_append] at hnd
  rcases hnd with ⟨h1, h2, hdis⟩
  refine ⟨l₁, l₂, rfl, ?_, ?_⟩
  · intro b' hb' heq
    exact hdis (List.mem_map_of_mem Box.name hb') (by simp [heq])
  · intro b' hb' heq
    rw [List.map_cons, List.nodup_cons] at h2
    exact h2.1 (heq ▸ List.mem_map_of_mem Box.name hb')

/-- The effect of one whole inner loop on the target box's seen set and
combined slice, with all box names distinct. -/
theorem stepRec_effect (boxes : List Box) (b : Box) (s : String)
    (hnd : (boxes.map Box.name).Nodup) (hb : b ∈ boxes) (rec : NormRec)
    (st : FilterState) (hk : b.name ∈ st.per_box_seen.map Prod.fst) :
    alookup ((boxes.foldl (stepBox rec) st)).per_box_seen b.name
      = (if b.contains rec.lat rec.lon = true
            ∧ rec.icao ∉ alookup st.per_box_seen b.name
          then rec.icao :: alookup st.per_box_seen b.name
          else alookup st.per_box_seen b.name)
    ∧ (boxes.foldl (stepBox rec) st).combined_rows.filter (outKey b s)
      = st.combined_rows.filter (outKey b s)
        ++ (if b.contains rec.lat rec.lon = true
              ∧ rec.icao ∉ alookup st.per_box_seen b.name ∧ rec.icao = s
            then [mkOut b rec] else []) := by
  rcases boxes_split boxes b hb hnd with ⟨l₁, l₂, rfl, h1, h2⟩
  rw [List.foldl_append, List.foldl_cons]
  have hf1 := foldl_stepBox_frame rec b s l₁ h1 st
  have hk₁ : b.name ∈ (l₁.foldl (stepBox rec) st).per_box_seen.map Prod.fst := by
    rw [foldlBoxes_seen_keys]; exact hk
  have hs := stepBox_self rec b s (l₁.foldl (stepBox rec) st) hk₁
  have hf2 := foldl_stepBox_frame rec b s l₂ h2
    (stepBox rec (l₁.foldl (stepBox rec) st) b)
  constructor
  · rw [hf2.1, hs.1, hf1.1]
  · rw [hf2.2, hs.2, hf1.2, hf1.1]

/-- Unfolding `findRec` over a cons. -/
theorem findRec_cons (rec : NormRec) (recs : List NormRec) (b : Box) (s : String) :
    findRec (rec :: recs) b s
      = if (rec.icao == s && b.contains rec.lat rec.lon) = true then some rec
        else findRec recs b s := by
  by_cases h : (rec.icao == s && b.contains rec.lat rec.lon) = true
  · rw [if_pos h]
    exact List.find?_cons_of_pos _ h
  · rw [if_neg h]
    exact List.find?_cons_of_neg _ (by simpa using h)

/-- Characterization of the whole filter loop for one target box: its
seen set collects exactly the codes of contained records, and its slice
of the combined table is the singleton output of the first contained
record with the selected code (empty when none, or when the code was
already seen at loop entry). -/
theorem filter_loop_char (boxes : List Box) (b : Box)
    (hnd : (boxes.map Box.name).Nodup) (hb : b ∈ boxes) :
    ∀ (rows : List Row) (st : FilterState),
      b.name ∈ st.per_box_seen.map Prod.fst →
      (∀ s, (s ∈ alookup ((rows.foldl (stepRow boxes) st)).per_box_seen b.name ↔
          s ∈ alookup st.per_box_seen b.name
            ∨ (findRec (normRecs rows) b s).isSome = true))
      ∧ (∀ s, (rows.foldl (stepRow boxes) st).combined_rows.filter (outKey b s)
            = st.combined_rows.filter (outKey b s)
              ++ (if s ∈ alookup st.per_box_seen b.name then []
                  else Option.toList ((findRec (normRecs rows) b s).map (mkOut b)))) := by
  intro rows
  induction rows with
  | nil =>
    intro st hk
    constructor
    · intro s
      simp [normRecs, findRec]
    · intro s
      simp [normRecs, findRec]
  | cons r rs ih =>
    intro st hk
    rw [List.foldl_cons]
    cases hn : normRow r with
    | none =>
      have hst : stepRow boxes st r = st := by simp [stepRow, hn]
      rw [hst]
      have hrecs : normRecs (r :: rs) = normRecs rs := by
        simp [normRecs, List.filterMap_cons, hn]
      have h := ih st hk
      exact ⟨fun s => by rw [h.1 s, hrecs], fun s => by rw [h.2 s, hrecs]⟩
    | some rec =>
      have hst : stepRow boxes st r = boxes.foldl (stepBox rec) st := by
        simp [stepRow, hn]
      rw [hst]
      have hrecs : normRecs (r :: rs) = rec :: normRecs rs := by
        simp [normRecs, List.filterMap_cons, hn]
      have hk₁ : b.name ∈ (boxes.foldl (stepBox rec) st).per_box_seen.map Prod.fst := by
        rw [foldlBoxes_seen_keys]; exact hk
      have h := ih (boxes.foldl (stepBox rec) st) hk₁
      constructor
      · intro s
        rw [h.1 s, (stepRec_effect boxes b s hnd hb rec st hk).1, hrecs, findRec_cons]
        by_cases hC : b.contains rec.lat rec.lon = true
        · by_cases hm : rec.icao ∈ alookup st.per_box_seen b.name
          · by_cases hs' : rec.icao = s
            · subst hs'
              simp [hC, hm]
            · have hbs : (rec.icao == s) = false := by simpa using hs'
              simp [hC, hm, hbs]
          · by_cases hs' : rec.icao = s
            · subst hs'
              simp [hC, hm]
            · have hbs : (rec.icao == s) = false := by simpa using hs'
              have hss : ¬ s = rec.icao := fun h' => hs' h'.symm
              simp [hC, hm, hbs, hss, hs']
        · have hCf : b.contains rec.lat rec.lon = false := by simpa using hC
          simp [hC, hCf]
      · intro s
        rw [h.2 s, (stepRec_effect boxes b s hnd hb rec st hk).2,
          (stepRec_effect boxes b s hnd hb rec st hk).1, hrecs, findRec_cons]
        by_cases hC : b.contains rec.lat rec.lon = true
        · by_cases hm : rec.icao ∈ alookup st.per_box_seen b.name
          · by_cases hs' : rec.icao = s
            · subst hs'
              simp [hC, hm]
            · have hbs : (rec.icao == s) = false := by simpa using hs'
              simp [hC, hm, hbs]
          · by_cases hs' : rec.icao = s
            · subst hs'
              simp [hC, hm]
            · have hbs : (rec.icao == s) = false := by simpa using hs'
              have hss : ¬ s = rec.icao := fun h' => hs' h'.symm
              simp [hC, hm, hbs, hss, hs']
        · have hCf : b.contains rec.lat rec.lon = false := by simpa using hC
          simp [hC, hCf]

/-- C2: with distinct box names, the combined matches table holds, for
every box and code, exactly the rows selected by that pair — one row when
some normalized record with that code lies in that box (the row built
from the first such record in input order; later duplicates are dropped
silently), and none otherwise.  A record inside two distinct boxes hence
contributes one row per box. -/
theorem filter_csv_dedup (rows : List Row) (boxes : List Box)
    (hnd : (boxes.map Box.name).Nodup) (b : Box) (hb : b ∈ boxes) (s : String) :
    (filter_csv rows boxes).combined_rows.filter (outKey b s)
      = Option.toList ((findRec (normRecs rows) b s).map (mkOut b)) := by
  have hk : b.name ∈ (initState boxes).per_box_seen.map Prod.fst := by
    simp only [initState, List.map_map]
    exact List.mem_map.mpr ⟨b, hb, rfl⟩
  have h := (filter_loop_char boxes b hnd hb rows (initState boxes) hk).2 s
  unfold filter_csv
  rw [h]
  simp [initState, alookup_pairs_nil]

/-- Witness for C2: the specification's end-to-end scenario — box `EU`,
rows `LFPG` (inside) and `KJFK` (outside) — and both dedup slices. -/
theorem filter_csv_dedup_witness :
    ((euBoxes.map Box.name).Nodup ∧ euBox ∈ euBoxes)
    ∧ (filter_csv euRows euBoxes).combined_rows.filter (outKey euBox "LFPG")
        = Option.toList ((findRec (normRecs euRows) euBox "LFPG").map (mkOut euBox))
    ∧ (filter_csv euRows euBoxes).combined_rows.filter (outKey euBox "KJFK")
        = Option.toList ((findRec (normRecs euRows) euBox "KJFK").map (mkOut euBox))
    ∧ (filter_csv euRows euBoxes).combined_rows.length = 1 :=
  ⟨⟨by decide, by decide⟩,
    filter_csv_dedup euRows euBoxes (by decide) euBox (by decide) "LFPG",
    filter_csv_dedup euRows euBoxes (by decide) euBox (by decide) "KJFK",
    by decide⟩

/-- Updating an aggregate key does not change the key sequence. -/
theorem aggUpd_keys (l : List (String × AggEntry)) (k : String)
    (f : AggEntry → AggEntry) :
    (aggUpd l k f).map Prod.fst = l.map Prod.fst := by
  induction l with
  | nil => rfl
  | cons p t ih =>
    simp only [aggUpd]
    by_cases h : (p.1 == k) = true
    · rw [if_pos h]; rfl
    · rw [if_neg h, List.map_cons, List.map_cons, ih]

/-- Updating an aggregate key maps exactly its looked-up entry. -/
theorem aggFind_aggUpd_self (l : List (String × AggEntry)) (k : String)
    (f : AggEntry → AggEntry) :
    aggFind (aggUpd l k f) k = (aggFind l k).map f := by
  induction l with
  | nil => rfl
  | cons p t ih =>
    simp only [aggUpd]
    by_cases h : (p.1 == k) = true
    · rw [if_pos h]
      unfold aggFind
      rw [List.find?_cons_of_pos _ (by simpa using h),
        List.find?_cons_of_pos _ (by simpa using h)]
      rfl
    · rw [if_neg h]
      unfold aggFind
      rw [List.find?_cons_of_neg _ (by simpa using h),
        List.find?_cons_of_neg _ (by simpa using h)]
      exact ih

/-- Updating one aggregate key leaves other lookups unchanged. -/
theorem aggFind_aggUpd_ne (l : List (String × AggEntry)) (k k' : String)
    (f : AggEntry → AggEntry) (hne : k ≠ k') :
    aggFind (aggUpd l k f) k' = aggFind l k' := by
  induction l with
  | nil => rfl
  | cons p t ih =>
    simp only [aggUpd]
    by_cases h : (p.1 == k) = true
    · rw [if_pos h]
      have hp : p.1 = k := by simpa using h
      unfold aggFind
      rw [List.find?_cons_of_neg _ (by simp [hp, hne]),
        List.find?_cons_of_neg _ (by simp [hp, hne])]
    · rw [if_neg h]
      unfold aggFind
      by_cases h2 : (p.1 == k') = true
      · rw [List.find?_cons_of_pos _ (by simpa using h2),
          List.find?_cons_of_pos _ (by simpa using h2)]
      · rw [List.find?_cons_of_neg _ (by simpa using h2),
          List.find?_cons_of_neg _ (by simpa using h2)]
        exact ih

/-- Aggregate lookup distributes over append. -/
theorem aggFind_append (l₁ l₂ : List (String × AggEntry)) (k : String) :
    aggFind (l₁ ++ l₂) k = (aggFind l₁ k).or (aggFind l₂ k) := by
  unfold aggFind
  rw [List.find?_append]
  cases List.find? (fun p => p.1 == k) l₁ <;> simp

/-- A lookup succeeds exactly for present keys. -/
theorem aggFind_isSome_iff (l : List (String × AggEntry)) (k : String) :
    (aggFind l k).isSome = true ↔ k ∈ l.map Prod.fst := by
  unfold aggFind
  constructor
  · intro h
    cases hf : List.find? (fun p => p.1 == k) l with
    | none => rw [hf] at h; cases h
    | some p =>
      have hp := List.find?_some hf
      have hmem := List.mem_of_find?_eq_some hf
      exact List.mem_map.mpr ⟨p, hmem, by simpa using hp⟩
  · intro hk
    rcases List.mem_map.mp hk with ⟨p, hp, hpk⟩
    cases hf : List.find? (fun p => p.1 == k) l with
    | none =>
      have hnone := List.find?_eq_none.mp hf p hp
      simp [hpk] at hnone
    | some q => simp [hf]

/-- Membership in a Python set after `add`. -/
theorem mem_setAdd (l : List String) (s x : String) :
    x ∈ setAdd l s ↔ x ∈ l ∨ x = s := by
  unfold setAdd
  by_cases h : s ∈ l
  · rw [if_pos h]
    constructor
    · exact Or.inl
    · rintro (hx | rfl)
      · exact hx
      · exact h
  · rw [if_neg h]
    simp

/-- Aggregate lookup in a singleton dictionary. -/
theorem aggFind_singleton (k : String) (e : AggEntry) (c : String) :
    aggFind [(k, e)] c = if (k == c) = true then some e else none := by
  unfold aggFind
  by_cases h : (k == c) = true
  · rw [if_pos h, List.find?_cons_of_pos _ (by simpa using h)]
    rfl
  · rw [if_neg h, List.find?_cons_of_neg _ (by simpa using h)]
    rfl

/-- The first accepted row bearing a code exists exactly when some
accepted row bears it. -/
theorem findAccepted_isSome_iff (rows : List Row) (c : String) :
    ((rows.filter acceptedB).find? (fun x => rowCodeB x == c)).isSome = true
      ↔ ∃ r ∈ rows, acceptedB r = true ∧ rowCodeB r = c := by
  rw [List.find?_isSome]
  constructor
  · rintro ⟨x, hx, hxc⟩
    rcases List.mem_filter.mp hx with ⟨hmem, haccx⟩
    exact ⟨x, hmem, haccx, by simpa using hxc⟩
  · rintro ⟨x, hmem, haccx, hcx⟩
    exact ⟨x, List.mem_filter.mpr ⟨hmem, haccx⟩, by simp [hcx]⟩

/-- Effect of one merge-stage row on the aggregate dictionary: a skipped
row leaves it unchanged; an accepted row inserts a fresh entry when its
code is new and then adds its box name to that code's box set. -/
theorem bStep_agg (st : BState) (row : Row) :
    (acceptedB row = false → (bStep st row).icao_to_data = st.icao_to_data)
    ∧ (∀ lat lon, rowCoordsB row = some (lat, lon) → acceptedB row = true →
        (bStep st row).icao_to_data
          = aggUpd (if (aggFind st.icao_to_data (rowCodeB row)).isSome = true
                    then st.icao_to_data
                    else st.icao_to_data ++ [(rowCodeB row, ⟨lat, lon, []⟩)])
              (rowCodeB row) (fun e => ⟨e.lat, e.lon, setAdd e.boxes (rowBoxB row)⟩)) := by
  constructor
  · intro hacc
    rcases hla : safe_float (rowGet row LAT_COL) with _ | lat
    · simp [bStep, hla]
    · rcases hlo : safe_float (rowGet row LON_COL) with _ | lon
      · simp [bStep, hla, hlo]
      · by_cases h1 : pyUpper (pyStrip ((rowGet row ICAO_COL).getD "")) = ""
            ∨ pyStrip ((rowGet row BOX_COL).getD "") = ""
        · simp [bStep, hla, hlo, h1]
        · by_cases h2 : (-90 ≤ lat ∧ lat ≤ 90 ∧ -180 ≤ lon ∧ lon ≤ 180)
          · exfalso
            have htrue : acceptedB row = true := by
              simp [acceptedB, hla, hlo, rowCodeB, rowBoxB, h1, h2]
            rw [htrue] at hacc
            cases hacc
          · simp [bStep, hla, hlo, h1, h2]
  · intro lat lon hco hacc
    simp only [rowCoordsB] at hco
    rcases hla : safe_float (rowGet row LAT_COL) with _ | la
    · rw [hla] at hco; cases hco
    · rcases hlo : safe_float (rowGet row LON_COL) with _ | lo
      · rw [hla, hlo] at hco; cases hco
      · rw [hla, hlo] at hco
        cases hco
        simp only [acceptedB, hla, hlo] at hacc
        by_cases h1 : rowCodeB row = "" ∨ rowBoxB row = ""
        · rw [if_pos h1] at hacc; cases hacc
        · rw [if_neg h1] at hacc
          by_cases h2 : ¬ (-90 ≤ lat ∧ lat ≤ 90 ∧ -180 ≤ lon ∧ lon ≤ 180)
          · rw [if_pos h2] at hacc; cases hacc
          · have h1' := h1
            simp only [rowCodeB, rowBoxB] at h1'
            simp [bStep, hla, hlo, h1', h2, rowCodeB, rowBoxB]

/-- Characterization of the merge-stage aggregate: keys are distinct, a
code is present exactly when some accepted row bears it, its coordinates
are those of the first accepted row bearing it, and its box set holds
exactly the box names of the accepted rows bearing it. -/
theorem bScanAgg : ∀ (rows : List Row),
    ((bScan rows).icao_to_data.map Prod.fst).Nodup
    ∧ ∀ c : String,
        ((aggFind (bScan rows).icao_to_data c).isSome = true ↔
          ∃ r ∈ rows, acceptedB r = true ∧ rowCodeB r = c)
        ∧ ∀ e, aggFind (bScan rows).icao_to_data c = some e →
            (some (e.lat, e.lon)
              = ((rows.filter acceptedB).find? (fun x => rowCodeB x == c)).bind rowCoordsB)
            ∧ ∀ bx, (bx ∈ e.boxes ↔
                ∃ r ∈ rows, acceptedB r = true ∧ rowCodeB r = c ∧ rowBoxB r = bx) := by
  intro rows
  induction rows using List.reverseRecOn with
  | nil =>
    constructor
    · simp [bScan]
    · intro c
      constructor
      · simp [bScan, aggFind]
      · intro e he
        simp [bScan, aggFind] at he
  | append_singleton rs r ih =>
    have hstep : (bScan (rs ++ [r])).icao_to_data = (bStep (bScan rs) r).icao_to_data := by
      simp [bScan, List.foldl_append]
    by_cases hacc : acceptedB r = true
    · have hco : ∃ lat lon, rowCoordsB r = some (lat, lon) := by
        rcases hla : safe_float (rowGet r LAT_COL) with _ | la
        · simp [acceptedB, hla] at hacc
        · rcases hlo : safe_float (rowGet r LON_COL) with _ | lo
          · simp [acceptedB, hla, hlo] at hacc
          · exact ⟨la, lo, by simp [rowCoordsB, hla, hlo]⟩
      rcases hco with ⟨lat, lon, hco⟩
      have hagg := (bStep_agg (bScan rs) r).2 lat lon hco hacc
      have hfil : (rs ++ [r]).filter acceptedB = rs.filter acceptedB ++ [r] := by
        simp [List.filter_append, hacc]
      by_cases hpres : (aggFind (bScan rs).icao_to_data (rowCodeB r)).isSome = true
      · rw [if_pos hpres] at hagg
        constructor
        · rw [hstep, hagg, aggUpd_keys]
          exact ih.1
        · intro c
          by_cases hc : c = rowCodeB r
          · subst hc
            have hlook : aggFind (bScan (rs ++ [r])).icao_to_data (rowCodeB r)
                = (aggFind (bScan rs).icao_to_data (rowCodeB r)).map
                    (fun e => ⟨e.lat, e.lon, setAdd e.boxes (rowBoxB r)⟩) := by
              rw [hstep, hagg, aggFind_aggUpd_self]
            rcases ho : aggFind (bScan rs).icao_to_data (rowCodeB r) with _ | e₀
            · rw [ho] at hpres; cases hpres
            constructor
            · rw [hlook, ho]
              simp only [Option.map_some', Option.isSome_some, true_iff]
              exact ⟨r, by simp, hacc, rfl⟩
            · intro e he
              rw [hlook, ho] at he
              simp only [Option.map_some', Option.some.injEq] at he
              subst he
              have hih := (ih.2 (rowCodeB r)).2 e₀ ho
              constructor
              · have hfs := (findAccepted_isSome_iff rs (rowCodeB r)).mpr
                  ((ih.2 (rowCodeB r)).1.mp hpres)
                rcases hfr : (rs.filter acceptedB).find?
                    (fun x => rowCodeB x == rowCodeB r) with _ | r₀
                · rw [hfr] at hfs; cases hfs
                · rw [hfil, List.find?_append, hfr]
                  have hthis := hih.1
                  rw [hfr] at hthis
                  exact hthis
              · intro bx
                rw [show (⟨e₀.lat, e₀.lon, setAdd e₀.boxes (rowBoxB r)⟩ : AggEntry).boxes
                    = setAdd e₀.boxes (rowBoxB r) from rfl, mem_setAdd, hih.2 bx]
                constructor
                · rintro (⟨r', hr', h1, h2, h3⟩ | rfl)
                  · exact ⟨r', by simp [hr'], h1, h2, h3⟩
                  · exact ⟨r, by simp, hacc, rfl, rfl⟩
                · rintro ⟨r', hr', h1, h2, h3⟩
                  rcases List.mem_append.mp hr' with h4 | h4
                  · exact Or.inl ⟨r', h4, h1, h2, h3⟩
                  · have hrr : r' = r := by simpa using h4
                    subst hrr
                    exact Or.inr h3.symm
          · have hne : rowCodeB r ≠ c := fun h => hc h.symm
            have hlook : aggFind (bScan (rs ++ [r])).icao_to_data c
                = aggFind (bScan rs).icao_to_data c := by
              rw [hstep, hagg, aggFind_aggUpd_ne _ _ _ _ hne]
            constructor
            · rw [hlook, (ih.2 c).1]
              constructor
              · rintro ⟨r', hr', h1, h2⟩
                exact ⟨r', by simp [hr'], h1, h2⟩
              · rintro ⟨r', hr', h1, h2⟩
                rcases List.mem_append.mp hr' with h4 | h4
                · exact ⟨r', h4, h1, h2⟩
                · exfalso
                  have hrr : r' = r := by simpa using h4
                  subst hrr
                  exact hne h2
            · intro e he
              rw [hlook] at he
              have hih := (ih.2 c).2 e he
              constructor
              · have hnone : List.find? (fun x => rowCodeB x == c) [r] = none := by
                  rw [List.find?_cons_of_neg _ (by simpa using hne)]
                  rfl
                rw [hfil, List.find?_append, hnone, Option.or_none]
                exact hih.1
              · intro bx
                rw [hih.2 bx]
                constructor
                · rintro ⟨r', hr', h⟩
                  exact ⟨r', by simp [hr'], h⟩
                · rintro ⟨r', hr', h1, h2, h3⟩
                  rcases List.mem_append.mp hr' with h4 | h4
                  · exact ⟨r', h4, h1, h2, h3⟩
                  · exfalso
                    have hrr : r' = r := by simpa using h4
                    subst hrr
                    exact hne h2
      · rw [if_neg hpres] at hagg
        have hnone : aggFind (bScan rs).icao_to_data (rowCodeB r) = none :=
          Option.not_isSome_iff_eq_none.mp hpres
        have hex : ¬ ∃ r' ∈ rs, acceptedB r' = true ∧ rowCodeB r' = rowCodeB r := by
          intro hx
          exact hpres ((ih.2 (rowCodeB r)).1.mpr hx)
        constructor
        · rw [hstep, hagg, aggUpd_keys, List.map_append, List.nodup_append]
          refine ⟨ih.1, by simp, ?_⟩
          intro a ha hb
          have haa : a = rowCodeB r := by simpa using hb
          subst haa
          exact hpres ((aggFind_isSome_iff _ _).mpr ha)
        · intro c
          by_cases hc : c = rowCodeB r
          · subst hc
            have hlook : aggFind (bScan (rs ++ [r])).icao_to_data (rowCodeB r)
                = some ⟨lat, lon, setAdd [] (rowBoxB r)⟩ := by
              rw [hstep, hagg, aggFind_aggUpd_self, aggFind_append, hnone,
                aggFind_singleton]
              simp
            constructor
            · rw [hlook]
              simp only [Option.isSome_some, true_iff]
              exact ⟨r, by simp, hacc, rfl⟩
            · intro e he
              rw [hlook] at he
              cases he
              have hfnone : (rs.filter acceptedB).find?
                  (fun x => rowCodeB x == rowCodeB r) = none := by
                apply Option.not_isSome_iff_eq_none.mp
                intro hx
                exact hex ((findAccepted_isSome_iff rs (rowCodeB r)).mp hx)
              constructor
              · have hfind : List.find? (fun x => rowCodeB x == rowCodeB r) [r]
                    = some r := by
                  simp [List.find?]
                rw [hfil, List.find?_append, hfnone, Option.none_or, hfind]
                simp [hco]
              · intro bx
                rw [show (⟨lat, lon, setAdd [] (rowBoxB r)⟩ : AggEntry).boxes
                    = setAdd [] (rowBoxB r) from rfl, mem_setAdd]
                constructor
                · rintro (h | rfl)
                  · cases h
                  · exact ⟨r, by simp, hacc, rfl, rfl⟩
                · rintro ⟨r', hr', h1, h2, h3⟩
                  rcases List.mem_append.mp hr' with h4 | h4
                  · exact absurd ⟨r', h4, h1, h2⟩ hex
                  · have hrr : r' = r := by simpa using h4
                    subst hrr
                    exact Or.inr h3.symm
          · have hne : rowCodeB r ≠ c := fun h => hc h.symm
            have hlook : aggFind (bScan (rs ++ [r])).icao_to_data c
                = aggFind (bScan rs).icao_to_data c := by
              rw [hstep, hagg, aggFind_aggUpd_ne _ _ _ _ hne, aggFind_append,
                aggFind_singleton]
              have hbne : (rowCodeB r == c) = false := by simpa using hne
              rw [hbne]
              simp
            constructor
            · rw [hlook, (ih.2 c).1]
              constructor
              · rintro ⟨r', hr', h1, h2⟩
                exact ⟨r', by simp [hr'], h1, h2⟩
              · rintro ⟨r', hr', h1, h2⟩
                rcases List.mem_append.mp hr' with h4 | h4
                · exact ⟨r', h4, h1, h2⟩
                · exfalso
                  have hrr : r' = r := by simpa using h4
                  subst hrr
                  exact hne h2
            · intro e he
              rw [hlook] at he
              have hih := (ih.2 c).2 e he
              constructor
              · have hnone2 : List.find? (fun x => rowCodeB x == c) [r] = none := by
                  rw [List.find?_cons_of_neg _ (by simpa using hne)]
                  rfl
                rw [hfil, List.find?_append, hnone2, Option.or_none]
                exact hih.1
              · intro bx
                rw [hih.2 bx]
                constructor
                · rintro ⟨r', hr', h⟩
                  exact ⟨r', by simp [hr'], h⟩
                · rintro ⟨r', hr', h1, h2, h3⟩
                  rcases List.mem_append.mp hr' with h4 | h4
                  · exact ⟨r', h4, h1, h2, h3⟩
                  · exfalso
                    have hrr : r' = r := by simpa using h4
                    subst hrr
                    exact hne h2
    · have haccF : acceptedB r = false := by
        cases h : acceptedB r
        · rfl
        · exact absurd h hacc
      have hagg : (bScan (rs ++ [r])).icao_to_data = (bScan rs).icao_to_data := by
        rw [hstep]
        exact (bStep_agg (bScan rs) r).1 haccF
      have hfil : (rs ++ [r]).filter acceptedB = rs.filter acceptedB := by
        simp [List.filter_append, haccF]
      constructor
      · rw [hagg]; exact ih.1
      · intro c
        constructor
        · rw [hagg, (ih.2 c).1]
          constructor
          · rintro ⟨r', hr', h⟩
            exact ⟨r', by simp [hr'], h⟩
          · rintro ⟨r', hr', h1, h2⟩
            rcases List.mem_append.mp hr' with h4 | h4
            · exact ⟨r', h4, h1, h2⟩
            · exfalso
              have hrr : r' = r := by simpa using h4
              subst hrr
              rw [haccF] at h1
              cases h1
        · intro e he
          rw [hagg] at he
          have hih := (ih.2 c).2 e he
          constructor
          · rw [hfil]
            exact hih.1
          · intro bx
            rw [hih.2 bx]
            constructor
            · rintro ⟨r', hr', h⟩
              exact ⟨r', by simp [hr'], h⟩
            · rintro ⟨r', hr', h1, h2, h3⟩
              rcases List.mem_append.mp hr' with h4 | h4
              · exact ⟨r', h4, h1, h2, h3⟩
              · exfalso
                have hrr : r' = r := by simpa using h4
                subst hrr
                rw [haccF] at h1
                cases h1

/-- The emitted feature codes are exactly the sorted aggregate keys (the
per-code lookup always succeeds). -/
theorem buildPointFeatures_icaos (agg : List (String × AggEntry))
    (hall : ∀ c ∈ pySorted (agg.map Prod.fst), (aggFind agg c).isSome = true) :
    (buildPointFeatures agg).map PointFeature.icao = pySorted (agg.map Prod.fst) := by
  unfold buildPointFeatures
  suffices h : ∀ (l : List String), (∀ c ∈ l, (aggFind agg c).isSome = true) →
      (l.filterMap (fun icao =>
        match aggFind agg icao with
        | some e =>
          some (⟨"ICAO_" ++ icao, "Point", [e.lon, e.lat], "airport", icao,
            pySorted e.boxes, (pySorted e.boxes).length⟩ : PointFeature)
        | none => none)).map PointFeature.icao = l by
    exact h _ hall
  intro l
  induction l with
  | nil => intro _; rfl
  | cons c t ih =>
    intro hall2
    rcases ho : aggFind agg c with _ | e
    · have hx := hall2 c (List.mem_cons_self c t)
      rw [ho] at hx
      cases hx
    · simp only [List.filterMap_cons, ho, List.map_cons]
      rw [ih (fun x hx => hall2 x (List.mem_cons_of_mem c hx))]

/-- Every emitted feature comes from one aggregate entry, with exactly
the fields the builder writes. -/
theorem mem_buildPointFeatures (agg : List (String × AggEntry)) (pf : PointFeature)
    (h : pf ∈ buildPointFeatures agg) :
    ∃ c e, aggFind agg c = some e
      ∧ pf = ⟨"ICAO_" ++ c, "Point", [e.lon, e.lat], "airport", c,
          pySorted e.boxes, (pySorted e.boxes).length⟩ := by
  unfold buildPointFeatures at h
  rcases List.mem_filterMap.mp h with ⟨c, hc, hsome⟩
  rcases ho : aggFind agg c with _ | e
  · rw [ho] at hsome
    cases hsome
  · rw [ho] at hsome
    cases hsome
    exact ⟨c, e, ho, rfl⟩

/-- C4: the merge-stage aggregator holds exactly one entry per distinct
accepted code; its coordinates are those of the first accepted row
bearing that code (later coordinates ignored); its box set is the set of
box names over all accepted rows bearing that code; and the final codes
are emitted in lexicographic order. -/
theorem bScan_aggregate (rows : List Row) :
    ((bScan rows).icao_to_data.map Prod.fst).Nodup
    ∧ (∀ c : String,
        ((aggFind (bScan rows).icao_to_data c).isSome = true ↔
          ∃ r ∈ rows, acceptedB r = true ∧ rowCodeB r = c)
        ∧ ∀ e, aggFind (bScan rows).icao_to_data c = some e →
            (some (e.lat, e.lon)
              = ((rows.filter acceptedB).find? (fun x => rowCodeB x == c)).bind rowCoordsB)
            ∧ ∀ bx, (bx ∈ e.boxes ↔
                ∃ r ∈ rows, acceptedB r = true ∧ rowCodeB r = c ∧ rowBoxB r = bx))
    ∧ List.Sorted (fun a b => strLe a b = true)
        ((buildPointFeatures (bScan rows).icao_to_data).map PointFeature.icao)
    ∧ ((buildPointFeatures (bScan rows).icao_to_data).map PointFeature.icao).Perm
        ((bScan rows).icao_to_data.map Prod.fst) := by
  have hperm := List.perm_insertionSort (fun a b => strLe a b = true)
    ((bScan rows).icao_to_data.map Prod.fst)
  have hall : ∀ c ∈ pySorted ((bScan rows).icao_to_data.map Prod.fst),
      (aggFind (bScan rows).icao_to_data c).isSome = true := by
    intro c hc
    rw [aggFind_isSome_iff]
    exact hperm.subset hc
  have hmap := buildPointFeatures_icaos _ hall
  refine ⟨(bScanAgg rows).1, (bScanAgg rows).2, ?_, ?_⟩
  · rw [hmap]
    letI : IsTotal String (fun a b => strLe a b = true) :=
      ⟨fun a b => lexLe_total a.data b.data⟩
    letI : IsTrans String (fun a b => strLe a b = true) :=
      ⟨fun a b c => lexLe_trans a.data b.data c.data⟩
    exact List.sorted_insertionSort _ _
  · rw [hmap]
    exact hperm

/-- Witness for C4: two rows with code `AAAA` in boxes `B2` then `B1` —
the entry keeps the first row's coordinates and both box names. -/
theorem bScan_aggregate_witness :
    ((aggFind (bScan c4Rows).icao_to_data ("AAAA")).isSome = true)
    ∧ (some (c4Entry.lat, c4Entry.lon)
        = ((c4Rows.filter acceptedB).find? (fun x => rowCodeB x == ("AAAA"))).bind rowCoordsB)
    ∧ (("B1") ∈ c4Entry.boxes
        ↔ ∃ r ∈ c4Rows, acceptedB r = true ∧ rowCodeB r = ("AAAA")
            ∧ rowBoxB r = ("B1")) :=
  ⟨((bScan_aggregate c4Rows).2.1 ("AAAA")).1.mpr ⟨c4Row1, by decide, by decide, by decide⟩,
    (((bScan_aggregate c4Rows).2.1 ("AAAA")).2 c4Entry (by decide)).1,
    (((bScan_aggregate c4Rows).2.1 ("AAAA")).2 c4Entry (by decide)).2 ("B1")⟩

/-- C5: every emitted point feature has id `"ICAO_" + code`, geometry
type `"Point"`, properties type `"airport"`, a lexicographically sorted
box list with `box_count` its length, and coordinates
`[longitude, latitude]` of the first accepted row bearing the code; the
point features are appended after the pre-existing features. -/
theorem mergedFeatures_spec {α : Type} (orig : List α) (rows : List Row) :
    (∀ pf ∈ buildPointFeatures (bScan rows).icao_to_data,
        pf.id = ("ICAO_") ++ pf.icao
        ∧ pf.geomType = ("Point")
        ∧ pf.prop_type = ("airport")
        ∧ pf.box_count = pf.boxes.length
        ∧ List.Sorted (fun a b => strLe a b = true) pf.boxes
        ∧ ∃ r lat lon,
            (rows.filter acceptedB).find? (fun x => rowCodeB x == pf.icao) = some r
            ∧ rowCoordsB r = some (lat, lon)
            ∧ pf.coordinates = [lon, lat])
    ∧ mergedFeatures orig rows
        = orig.map Sum.inl
          ++ (buildPointFeatures (bScan rows).icao_to_data).map Sum.inr := by
  constructor
  · intro pf hpf
    rcases mem_buildPointFeatures _ pf hpf with ⟨c, e, ho, rfl⟩
    refine ⟨rfl, rfl, rfl, rfl, ?_, ?_⟩
    · letI : IsTotal String (fun a b => strLe a b = true) :=
        ⟨fun a b => lexLe_total a.data b.data⟩
      letI : IsTrans String (fun a b => strLe a b = true) :=
        ⟨fun a b c => lexLe_trans a.data b.data c.data⟩
      exact List.sorted_insertionSort _ _
    · have h1 := (((bScanAgg rows).2 c).2 e ho).1
      rcases hfr : (rows.filter acceptedB).find? (fun x => rowCodeB x == c) with _ | r₀
      · rw [hfr] at h1
        simp at h1
      · rw [hfr] at h1
        exact ⟨r₀, e.lat, e.lon, rfl, h1.symm, rfl⟩
  · rfl

/-- Witness for C5 at the `c4Rows` scenario: feature `ICAO_AAAA` with
coordinates `[2, 1]` (longitude first) and sorted boxes `B1`, `B2`. -/
theorem mergedFeatures_spec_witness :
    (c5Feat.id = ("ICAO_") ++ c5Feat.icao
      ∧ c5Feat.geomType = ("Point")
      ∧ c5Feat.prop_type = ("airport")
      ∧ c5Feat.box_count = c5Feat.boxes.length
      ∧ List.Sorted (fun a b => strLe a b = true) c5Feat.boxes
      ∧ ∃ r lat lon,
          (c4Rows.filter acceptedB).find? (fun x => rowCodeB x == c5Feat.icao) = some r
          ∧ rowCoordsB r = some (lat, lon)
          ∧ c5Feat.coordinates = [lon, lat])
    ∧ mergedFeatures ([] : List Unit) c4Rows
        = ([] : List Unit).map Sum.inl
          ++ (buildPointFeatures (bScan c4Rows).icao_to_data).map Sum.inr :=
  ⟨(mergedFeatures_spec ([] : List Unit) c4Rows).1 c5Feat (by decide),
    (mergedFeatures_spec ([] : List Unit) c4Rows).2⟩
